import Mathlib

/-!
Shallow embedding of `linchange.py` (the `main` pipeline and the numeric
routines it calls).  Numeric values are modelled over `ℚ`; the IEEE
not-a-number produced by `np.nanmean` on empty data is modelled by an
explicit `EF.nan` constructor.  External library calls (`np.percentile`,
`sklearn.linear_model.LinearRegression`, `scipy.stats.gaussian_kde`) are
embedded by their documented semantics on the shapes this program uses.
-/

namespace Linchange

/-- Extended value: a rational number or the floating not-a-number.
Models the float values flowing through the numpy pipeline. -/
inductive EF where
  | nan : EF
  | q : ℚ → EF
  deriving DecidableEq, Repr

/-- IEEE comparison `a <= b` as numpy evaluates it elementwise in
`values <= max_value`: any comparison involving NaN is false. -/
def EF.le : EF → EF → Bool
  | EF.q a, EF.q b => decide (a ≤ b)
  | _, _ => false

/-- Extract the rational payload; `none` on NaN. -/
def EF.toQ : EF → Option ℚ
  | EF.nan => none
  | EF.q a => some a

/-- One row of the annotation table consumed by the aggregation loop
(`annot_file.iterrows()`): chromosome, start, end, strand.  The source
column named end is rendered `stop` because end is reserved in Lean. -/
structure Interval where
  chr : String
  start : Nat
  stop : Nat
  strand : String
  deriving DecidableEq, Repr

instance : Inhabited Interval := ⟨⟨"", 0, 0, ""⟩⟩

/-- The value matrix `values`, row-major, as built by `np.zeros` and
elementwise assignment. -/
abbrev Matrix := List (List EF)

/-- Read entry `values[r, c]`; `none` when out of bounds (numpy raises
IndexError there). -/
def getCell (m : Matrix) (r c : Nat) : Option EF :=
  m[r]? >>= fun row => row[c]?

/-- Assignment `values[r, c] = v`.  All assignments performed by the
source are in bounds, so the out-of-bounds case (identity here, an
IndexError in numpy) is never reached on the traces we prove about. -/
def writeCell (m : Matrix) (r c : Nat) (v : EF) : Matrix :=
  match m[r]? with
  | some row => m.set r (row.set c v)
  | none => m

/-- Shape of a matrix: the list of row lengths. -/
def dims (m : Matrix) : List Nat :=
  m.map List.length

/-- Body of the inner loop of `main` (lines 77-86): one gene `i` of one
sample `s`.  `level s i` abstracts
`np.nanmean(bw_file.values(gene.chr, gene.start, gene.end))`, the mean
signal that track `s` reports over gene `i`. -/
def geneStep (distinguish : Bool) (genes : List Interval) (level : Nat → Nat → EF)
    (s : Nat) (m : Matrix) (i : Nat) : Matrix :=
  let g := genes.getD i default
  let lv := level s i
  if distinguish = true ∧ s % 2 = 1 ∧ g.strand = "-" then
    writeCell m (s / 2) i lv
  else if distinguish = true ∧ ¬ s % 2 = 1 ∧ g.strand = "+" then
    writeCell m (s / 2) i lv
  else if ¬ distinguish = true then
    writeCell m s i lv
  else
    m

/-- One iteration of the outer loop of `main` (line 74): sample `s`
visits every gene in order. -/
def aggStep (distinguish : Bool) (genes : List Interval) (level : Nat → Nat → EF)
    (m : Matrix) (s : Nat) : Matrix :=
  (List.range genes.length).foldl (geneStep distinguish genes level s) m

/-- The Signal Aggregator, lines 70-86 of `main`: a zero matrix with
`nInputs // 2` rows in strand-distinguishing mode (`nInputs` rows
otherwise) and one column per annotated interval, filled by the double
loop over samples and genes. -/
def aggregate (nInputs : Nat) (distinguish : Bool) (genes : List Interval)
    (level : Nat → Nat → EF) : Matrix :=
  let rows := if distinguish then nInputs / 2 else nInputs
  let init : Matrix := List.replicate rows (List.replicate genes.length (EF.q 0))
  (List.range nInputs).foldl (aggStep distinguish genes level) init

/-- `np.percentile(row, p)` with the default linear interpolation.  When
the row holds a NaN the result is NaN (numpy propagates NaN through the
percentile).  The value on an empty row is irrelevant: `filterOutliers`
rejects empty rows up front, as numpy raises there. -/
def percentile (row : List EF) (p : ℚ) : EF :=
  if EF.nan ∈ row then EF.nan
  else
    let qs := row.filterMap EF.toQ
    let n := qs.length
    let sorted := qs.insertionSort (· ≤ ·)
    let h : ℚ := ((n : ℚ) - 1) * p / 100
    let i : Nat := (⌊h⌋).toNat
    let lo := sorted.getD i 0
    let hi := sorted.getD (min (i + 1) (n - 1)) 0
    EF.q (lo + (h - (i : ℚ)) * (hi - lo))

/-- Keep the entries of `row` whose mask bit is true:
`row[mask]` for a boolean mask. -/
def applyMask (row : List EF) (mask : List Bool) : List EF :=
  ((row.zip mask).filter (fun rb => rb.2)).map (fun rb => rb.1)

/-- The column mask `np.all(values <= max_value[:, None], axis=0)`: a column
survives when in every row its entry is below that row's percentile
threshold. -/
def colMask (m : Matrix) (p : ℚ) : List Bool :=
  (List.range (m.headD []).length).map (fun c =>
    (m.zip (m.map (fun row => percentile row p))).all
      (fun rt => EF.le (rt.1.getD c (EF.q 0)) rt.2))

/-- The Outlier Filter, lines 88-90 of `main`: per-row percentile
thresholds, the column mask, and the column selection `values[:, mask]`.
`none` models the exception numpy raises when a percentile is taken over
an empty axis. -/
def filterOutliers (m : Matrix) (p : ℚ) : Option Matrix :=
  if m.any (fun row => row.isEmpty) then none
  else some (m.map (fun row => applyMask row (colMask m p)))

/-- Division with the minimum-norm convention of `lstsq`: a quotient
with zero denominator is 0. -/
def pinvDiv (a b : ℚ) : ℚ :=
  if b = 0 then 0 else a / b

/-- `LinearRegression(fit_intercept=True).fit(x, y)` for one feature:
centre the data and solve least squares; on a zero-variance feature the
minimum-norm solution of `lstsq` gives coefficient 0.  Returns
(slope, intercept). -/
def olsFit (x y : List ℚ) : ℚ × ℚ :=
  let n : ℚ := x.length
  let xbar := x.sum / n
  let ybar := y.sum / n
  let sxx := (x.map (fun a => (a - xbar) ^ 2)).sum
  let sxy := ((x.zip y).map (fun ab => (ab.1 - xbar) * (ab.2 - ybar))).sum
  let slope := pinvDiv sxy sxx
  (slope, ybar - slope * xbar)

/-- The `r2_score` combination rule: `1 - ss_res / ss_tot`, with
sklearn's convention for a zero total sum of squares (1 on a perfect
fit, 0 otherwise). -/
def r2Of (ssRes ssTot : ℚ) : ℚ :=
  if ssTot = 0 then (if ssRes = 0 then 1 else 0) else 1 - ssRes / ssTot

/-- `reg.score(x, y)`: the coefficient of determination of the fitted
line on the data it was fitted to. -/
def r2Score (x y : List ℚ) : ℚ :=
  let mb := olsFit x y
  let preds := x.map (fun a => mb.1 * a + mb.2)
  let ssRes := ((y.zip preds).map (fun vp => (vp.1 - vp.2) ^ 2)).sum
  let ybar := y.sum / (y.length : ℚ)
  let ssTot := (y.map (fun v => (v - ybar) ^ 2)).sum
  r2Of ssRes ssTot

/-- Determinant of the (unnormalised) scatter matrix of the paired data
`(x, y)`; the sample covariance used by `gaussian_kde` is this matrix
divided by `n - 1`, so the two are singular together. -/
def scatterMatDet (x y : List ℚ) : ℚ :=
  let n : ℚ := x.length
  let xbar := x.sum / n
  let ybar := y.sum / n
  let sxx := (x.map (fun a => (a - xbar) ^ 2)).sum
  let syy := (y.map (fun b => (b - ybar) ^ 2)).sum
  let sxy := ((x.zip y).map (fun ab => (ab.1 - xbar) * (ab.2 - ybar))).sum
  sxx * syy - sxy ^ 2

/-- Success condition of `gaussian_kde(values)` on the 2-row data matrix:
scipy factorises the sample covariance of the points and raises on fewer
than two points or on a singular covariance. -/
def gaussianKdeOk (x y : List ℚ) : Bool :=
  decide (2 ≤ x.length) && decide (scatterMatDet x y ≠ 0)

/-- Observable I/O steps of `main`, in program order: the annotation
load (line 69), each `pyBigWig.open` (line 75) and each per-gene signal
query (line 78). -/
inductive Event where
  | loadAnnot : Event
  | openTrack : Nat → Event
  | queryTrack : Nat → Nat → Event
  deriving DecidableEq, Repr

/-- Fatal outcomes of a run, abstracting the exceptions `main` can
raise after argument handling. -/
inductive RunError where
  | invalidInputCount : RunError
  | percentileEmpty : RunError
  | rowIndexOutOfBounds : RunError
  | nanInRegression : RunError
  | kdeSingular : RunError
  deriving DecidableEq, Repr

/-- The regression output consumed by the plot. -/
structure FitResult where
  slope : ℚ
  intercept : ℚ
  r2 : ℚ
  deriving DecidableEq, Repr

/-- The track I/O performed by the aggregation loop: for each sample in
order, one open followed by one query per gene. -/
def trackEvents (nInputs : Nat) (nGenes : Nat) : List Event :=
  (List.range nInputs).foldr
    (fun s acc => Event.openTrack s :: (List.range nGenes).map (Event.queryTrack s) ++ acc) []

/-- Regression, scoring and density stages of `main` (lines 92-94) on the
filtered value matrix: read rows 0 and 1 (IndexError when absent), reject
NaN samples as sklearn does, fit, score, and run the density estimate. -/
def fitStage (filtered : Matrix) : Except RunError FitResult :=
  match filtered[0]?, filtered[1]? with
  | some x, some y =>
    match x.mapM EF.toQ, y.mapM EF.toQ with
    | some xq, some yq =>
      let f := olsFit xq yq
      if gaussianKdeOk xq yq then
        Except.ok ⟨f.1, f.2, r2Score xq yq⟩
      else
        Except.error RunError.kdeSingular
    | _, _ => Except.error RunError.nanInRegression
  | _, _ => Except.error RunError.rowIndexOutOfBounds

/-- The computational core of `main` (lines 57-94): input-count check,
annotation load, aggregation, outlier filtering, then the fit stage.
Returns the I/O events performed together with the fit or the error that
aborted the run. -/
def runMain (nInputs : Nat) (distinguish : Bool) (genes : List Interval)
    (level : Nat → Nat → EF) (p : ℚ) : List Event × Except RunError FitResult :=
  if nInputs = 2 ∨ nInputs = 4 then
    let events := Event.loadAnnot :: trackEvents nInputs genes.length
    let values := aggregate nInputs distinguish genes level
    match filterOutliers values p with
    | none => (events, Except.error RunError.percentileEmpty)
    | some filtered => (events, fitStage filtered)
  else ([], Except.error RunError.invalidInputCount)

end Linchange

namespace Linchange

/-! Generic fold invariants. -/

lemma foldl_pres {α M β : Type _} (g : M → β) (f : M → α → M) :
    ∀ (l : List α), (∀ x ∈ l, ∀ m, g (f m x) = g m) → ∀ m : M, g (l.foldl f m) = g m := by
  intro l
  induction l with
  | nil => intro _ m; rfl
  | cons a t ih =>
    intro h m
    rw [List.foldl_cons, ih (fun x hx m => h x (List.mem_cons_of_mem a hx) m),
      h a (List.mem_cons_self a t)]

/-! Cell access and update. -/

lemma dims_length (m : Matrix) : (dims m).length = m.length :=
  List.length_map _ _

lemma rowLen_eq (m : Matrix) (r : Nat) : (m.getD r []).length = (dims m).getD r 0 := by
  unfold dims
  rcases h : m[r]? with _ | row
  · have : r ≥ m.length := List.getElem?_eq_none_iff.mp h
    rw [List.getD_eq_getElem?_getD, List.getD_eq_getElem?_getD, h,
      List.getElem?_eq_none (by simpa using this)]
    rfl
  · rw [List.getD_eq_getElem?_getD, List.getD_eq_getElem?_getD, h, List.getElem?_map, h]
    rfl

lemma getCell_eq_some (m : Matrix) (r c : Nat) (hr : r < m.length)
    (hc : c < (m.getD r []).length) : ∃ v, getCell m r c = some v := by
  unfold getCell
  rcases h : m[r]? with _ | row
  · exact absurd (List.getElem?_eq_none_iff.mp h) (by omega)
  · have hrow : m.getD r [] = row := by
      rw [List.getD_eq_getElem?_getD, h]; rfl
    rw [hrow] at hc
    exact ⟨row[c], by simp [List.getElem?_eq_getElem hc]⟩

lemma dims_writeCell (m : Matrix) (r c : Nat) (v : EF) :
    dims (writeCell m r c v) = dims m := by
  unfold writeCell
  rcases h : m[r]? with _ | row
  · rfl
  · have hr : r < m.length := by
      by_contra hge
      rw [List.getElem?_eq_none (by omega)] at h
      exact Option.noConfusion h
    unfold dims
    rw [List.map_set]
    apply List.ext_getElem?
    intro j
    rw [List.getElem?_set]
    split
    · rename_i hj
      subst hj
      rw [if_pos (by simpa using hr), List.getElem?_map, h, List.length_set]
      rfl
    · rfl

lemma length_writeCell (m : Matrix) (r c : Nat) (v : EF) :
    (writeCell m r c v).length = m.length := by
  rw [← dims_length, dims_writeCell, dims_length]

lemma getCell_writeCell_ne (m : Matrix) (r c : Nat) (v : EF) (r' c' : Nat)
    (h : r' ≠ r ∨ c' ≠ c) :
    getCell (writeCell m r c v) r' c' = getCell m r' c' := by
  unfold writeCell getCell
  rcases hm : m[r]? with _ | row
  · rfl
  · have hr : r < m.length := by
      by_contra hge
      rw [List.getElem?_eq_none (by omega)] at hm
      exact Option.noConfusion hm
    by_cases hrr : r' = r
    · subst hrr
      rcases h with h | h
      · exact absurd rfl h
      · rw [List.getElem?_set_self hr, hm]
        simp only [Option.bind_eq_bind, Option.some_bind]
        rw [List.getElem?_set_ne (fun hh => h hh.symm)]
    · rw [List.getElem?_set_ne (fun hh => hrr hh.symm)]

lemma getCell_writeCell_self (m : Matrix) (r c : Nat) (v : EF)
    (hr : r < m.length) (hc : c < (m.getD r []).length) :
    getCell (writeCell m r c v) r c = some v := by
  unfold writeCell getCell
  rcases hm : m[r]? with _ | row
  · exact absurd (List.getElem?_eq_none_iff.mp hm) (by omega)
  · have hrow : m.getD r [] = row := by
      rw [List.getD_eq_getElem?_getD, hm]; rfl
    rw [hrow] at hc
    rw [List.getElem?_set_self hr]
    simp only [Option.bind_eq_bind, Option.some_bind]
    rw [List.getElem?_set_self hc]

/-! One iteration of the inner aggregation loop. -/

lemma dims_geneStep (d : Bool) (genes : List Interval) (level : Nat → Nat → EF)
    (s : Nat) (m : Matrix) (i : Nat) :
    dims (geneStep d genes level s m i) = dims m := by
  simp only [geneStep]
  split_ifs <;> first | rfl | apply dims_writeCell

lemma getCell_geneStep_ne_col (d : Bool) (genes : List Interval) (level : Nat → Nat → EF)
    (s : Nat) (m : Matrix) (i r c : Nat) (h : i ≠ c) :
    getCell (geneStep d genes level s m i) r c = getCell m r c := by
  simp only [geneStep]
  split_ifs <;> first | rfl | exact getCell_writeCell_ne _ _ _ _ _ _ (Or.inr (fun hh => h hh.symm))

lemma getCell_geneStep_ne_row (d : Bool) (genes : List Interval) (level : Nat → Nat → EF)
    (s : Nat) (m : Matrix) (i r c : Nat) (hd : d = true) (h : ¬ s / 2 = r) :
    getCell (geneStep d genes level s m i) r c = getCell m r c := by
  simp only [geneStep]
  split_ifs with h1 h2
  · exact getCell_writeCell_ne _ _ _ _ _ _ (Or.inl (fun hh => h hh.symm))
  · exact getCell_writeCell_ne _ _ _ _ _ _ (Or.inl (fun hh => h hh.symm))
  · rfl

lemma geneStep_no_write (d : Bool) (genes : List Interval) (level : Nat → Nat → EF)
    (s : Nat) (m : Matrix) (i : Nat) (hd : d = true)
    (h1 : ¬ (s % 2 = 1 ∧ (genes.getD i default).strand = "-"))
    (h2 : ¬ (¬ s % 2 = 1 ∧ (genes.getD i default).strand = "+")) :
    geneStep d genes level s m i = m := by
  simp only [geneStep]
  rw [if_neg (fun hh => h1 ⟨hh.2.1, hh.2.2⟩), if_neg (fun hh => h2 ⟨hh.2.1, hh.2.2⟩),
    if_neg (fun hh => hh hd)]

lemma geneStep_write_plus (d : Bool) (genes : List Interval) (level : Nat → Nat → EF)
    (s : Nat) (m : Matrix) (i : Nat) (hd : d = true) (hs : ¬ s % 2 = 1)
    (hst : (genes.getD i default).strand = "+") :
    geneStep d genes level s m i = writeCell m (s / 2) i (level s i) := by
  simp only [geneStep]
  rw [if_neg (fun hh => hs hh.2.1), if_pos ⟨hd, hs, hst⟩]

lemma geneStep_write_minus (d : Bool) (genes : List Interval) (level : Nat → Nat → EF)
    (s : Nat) (m : Matrix) (i : Nat) (hd : d = true) (hs : s % 2 = 1)
    (hst : (genes.getD i default).strand = "-") :
    geneStep d genes level s m i = writeCell m (s / 2) i (level s i) := by
  simp only [geneStep]
  rw [if_pos ⟨hd, hs, hst⟩]

/-! One iteration of the outer aggregation loop. -/

lemma dims_aggStep (d : Bool) (genes : List Interval) (level : Nat → Nat → EF)
    (m : Matrix) (s : Nat) :
    dims (aggStep d genes level m s) = dims m :=
  foldl_pres dims _ _ (fun i _ m => dims_geneStep d genes level s m i) m

/-! Splitting an index range at a distinguished position. -/

lemma range_split (c N : Nat) (h : c < N) :
    List.range N = List.range c ++ c :: (List.range (N - c - 1)).map (fun i => c + (i + 1)) := by
  have hN : N = c + (N - c - 1 + 1) := by omega
  conv_lhs => rw [hN]
  rw [List.range_add, List.range_succ_eq_map, List.map_cons, List.map_map]
  rfl

/-! The zero matrix the aggregation starts from. -/

lemma getCell_replicate (rows n : Nat) (v : EF) (r c : Nat) (hr : r < rows) (hc : c < n) :
    getCell (List.replicate rows (List.replicate n v)) r c = some v := by
  unfold getCell
  rw [List.getElem?_replicate_of_lt hr]
  simp only [Option.bind_eq_bind, Option.some_bind]
  rw [List.getElem?_replicate_of_lt hc]

lemma dims_replicate (rows n : Nat) (v : EF) :
    dims (List.replicate rows (List.replicate n v)) = List.replicate rows n := by
  unfold dims
  rw [List.map_replicate, List.length_replicate]

/-! Writing and preserving a cell across whole loop iterations. -/

lemma getCell_aggStep_plus (d : Bool) (genes : List Interval) (level : Nat → Nat → EF)
    (m : Matrix) (s c : Nat) (hd : d = true) (hs : ¬ s % 2 = 1)
    (hst : (genes.getD c default).strand = "+") (hc : c < genes.length)
    (hr : s / 2 < m.length) (hcl : c < (m.getD (s / 2) []).length) :
    getCell (aggStep d genes level m s) (s / 2) c = some (level s c) := by
  show getCell ((List.range genes.length).foldl (geneStep d genes level s) m) (s / 2) c
    = some (level s c)
  rw [range_split c genes.length hc, List.foldl_append, List.foldl_cons]
  have hdims : dims ((List.range c).foldl (geneStep d genes level s) m) = dims m :=
    foldl_pres dims _ _ (fun i _ mm => dims_geneStep d genes level s mm i) m
  have hlen1 : ((List.range c).foldl (geneStep d genes level s) m).length = m.length := by
    rw [← dims_length, hdims, dims_length]
  have hrl1 : (((List.range c).foldl (geneStep d genes level s) m).getD (s / 2) []).length
      = (m.getD (s / 2) []).length := by
    rw [rowLen_eq, rowLen_eq, hdims]
  rw [geneStep_write_plus d genes level s _ c hd hs hst]
  refine (foldl_pres (fun mm => getCell mm (s / 2) c) _ _ ?_ _).trans
    (getCell_writeCell_self _ (s / 2) c _ (by omega) (by rw [hrl1]; exact hcl))
  intro x hx mm
  rcases List.mem_map.mp hx with ⟨i, _, rfl⟩
  exact getCell_geneStep_ne_col d genes level s mm (c + (i + 1)) (s / 2) c (by omega)

lemma getCell_aggStep_preserve_plus (d : Bool) (genes : List Interval)
    (level : Nat → Nat → EF) (m : Matrix) (s r c : Nat) (hd : d = true)
    (hst : (genes.getD c default).strand = "+") (hs : 2 * r + 1 ≤ s) :
    getCell (aggStep d genes level m s) r c = getCell m r c := by
  refine foldl_pres (fun mm => getCell mm r c) _ _ ?_ m
  intro i _ mm
  by_cases hic : i = c
  · by_cases hsr : s / 2 = r
    · have hodd : s % 2 = 1 := by omega
      have hst' : (genes.getD i default).strand = "+" := by rw [hic]; exact hst
      rw [geneStep_no_write d genes level s mm i hd
        (fun hh => by exact absurd (hst'.symm.trans hh.2) (by decide))
        (fun hh => hh.1 hodd)]
    · exact getCell_geneStep_ne_row d genes level s mm i r c hd hsr
  · exact getCell_geneStep_ne_col d genes level s mm i r c hic

lemma getCell_aggStep_preserve_nostrand (d : Bool) (genes : List Interval)
    (level : Nat → Nat → EF) (m : Matrix) (s r c : Nat) (hd : d = true)
    (hplus : ¬ (genes.getD c default).strand = "+")
    (hminus : ¬ (genes.getD c default).strand = "-") :
    getCell (aggStep d genes level m s) r c = getCell m r c := by
  refine foldl_pres (fun mm => getCell mm r c) _ _ ?_ m
  intro i _ mm
  by_cases hic : i = c
  · rw [geneStep_no_write d genes level s mm i hd
      (fun hh => hminus (by rw [← hic]; exact hh.2))
      (fun hh => hplus (by rw [← hic]; exact hh.2))]
  · exact getCell_geneStep_ne_col d genes level s mm i r c hic

/-- Claim C6: in strand-combination mode, an interval annotated with strand
"+" gets, for every track pair r, exactly the mean reported by the pair's
even-indexed track 2r; the odd-indexed track 2r+1 never writes that slot. -/
theorem C6_plus_strand_takes_even_track (nInputs : Nat) (genes : List Interval)
    (level : Nat → Nat → EF) (r c : Nat) (hr : 2 * r + 1 < nInputs)
    (hc : c < genes.length) (hst : (genes.getD c default).strand = "+") :
    getCell (aggregate nInputs true genes level) r c = some (level (2 * r) c) := by
  show getCell ((List.range nInputs).foldl (aggStep true genes level)
      (List.replicate (nInputs / 2) (List.replicate genes.length (EF.q 0)))) r c
    = some (level (2 * r) c)
  rw [range_split (2 * r) nInputs (by omega), List.foldl_append, List.foldl_cons]
  have h2r : 2 * r / 2 = r := by omega
  have hdims1 : dims ((List.range (2 * r)).foldl (aggStep true genes level)
      (List.replicate (nInputs / 2) (List.replicate genes.length (EF.q 0))))
      = List.replicate (nInputs / 2) genes.length := by
    rw [foldl_pres dims _ _ (fun s _ mm => dims_aggStep true genes level mm s) _,
      dims_replicate]
  have hlen1 : ((List.range (2 * r)).foldl (aggStep true genes level)
      (List.replicate (nInputs / 2) (List.replicate genes.length (EF.q 0)))).length
      = nInputs / 2 := by
    rw [← dims_length, hdims1, List.length_replicate]
  have hrow1 : (((List.range (2 * r)).foldl (aggStep true genes level)
      (List.replicate (nInputs / 2) (List.replicate genes.length (EF.q 0)))).getD r []).length
      = genes.length := by
    rw [rowLen_eq, hdims1, List.getD_eq_getElem?_getD,
      List.getElem?_replicate_of_lt (show r < nInputs / 2 by omega)]
    rfl
  have hplus := getCell_aggStep_plus true genes level
    ((List.range (2 * r)).foldl (aggStep true genes level)
      (List.replicate (nInputs / 2) (List.replicate genes.length (EF.q 0))))
    (2 * r) c rfl (by omega) hst hc
    (by rw [h2r, hlen1]; omega) (by rw [h2r, hrow1]; exact hc)
  rw [h2r] at hplus
  refine (foldl_pres (fun mm => getCell mm r c) _ _ ?_ _).trans hplus
  intro x hx mm
  rcases List.mem_map.mp hx with ⟨i, _, rfl⟩
  exact getCell_aggStep_preserve_plus true genes level mm (2 * r + (i + 1)) r c rfl hst
    (by omega)

/-- Claim C7: in strand-combination mode, an interval whose strand is neither
"+" nor "-" leaves every pair's aggregated slot at its initial value 0 (not
NaN), whatever the tracks report. -/
theorem C7_unmatched_strand_stays_zero (nInputs : Nat) (genes : List Interval)
    (level : Nat → Nat → EF) (r c : Nat) (hr : r < nInputs / 2) (hc : c < genes.length)
    (hplus : ¬ (genes.getD c default).strand = "+")
    (hminus : ¬ (genes.getD c default).strand = "-") :
    getCell (aggregate nInputs true genes level) r c = some (EF.q 0) := by
  show getCell ((List.range nInputs).foldl (aggStep true genes level)
      (List.replicate (nInputs / 2) (List.replicate genes.length (EF.q 0)))) r c
    = some (EF.q 0)
  refine (foldl_pres (fun mm => getCell mm r c) _ _ ?_ _).trans
    (getCell_replicate _ _ _ _ _ hr hc)
  intro s _ mm
  exact getCell_aggStep_preserve_nostrand true genes level mm s r c rfl hplus hminus

/-- Witness for C6 at a concrete input: one interval on the plus strand, two
tracks reporting 5 and 6; the pair's slot holds the even track's 5. -/
theorem C6_plus_strand_takes_even_track_witness :
    getCell (aggregate 2 true [⟨"chrI", 0, 100, "+"⟩]
      (fun s _ => if s = 0 then EF.q 5 else EF.q 6)) 0 0 = some (EF.q 5) :=
  C6_plus_strand_takes_even_track 2 [⟨"chrI", 0, 100, "+"⟩]
    (fun s _ => if s = 0 then EF.q 5 else EF.q 6) 0 0 (by omega) (by decide) (by decide)

/-- Witness for C7 at a concrete input: one interval with unspecified strand
"."; both tracks report 9, yet the slot stays 0. -/
theorem C7_unmatched_strand_stays_zero_witness :
    getCell (aggregate 2 true [⟨"chrI", 0, 100, "."⟩]
      (fun _ _ => EF.q 9)) 0 0 = some (EF.q 0) :=
  C7_unmatched_strand_stays_zero 2 [⟨"chrI", 0, 100, "."⟩]
    (fun _ _ => EF.q 9) 0 0 (by omega) (by decide) (by decide) (by decide)

/-! The percentile at p = 100 over a finite row is the row maximum. -/

lemma filterMap_toQ_length (row : List EF) (hfin : EF.nan ∉ row) :
    (row.filterMap EF.toQ).length = row.length := by
  induction row with
  | nil => rfl
  | cons a t ih =>
    rcases a with _ | b
    · exact absurd (List.mem_cons_self _ _) hfin
    · rw [List.filterMap_cons_some (show EF.toQ (EF.q b) = some b from rfl),
        List.length_cons, List.length_cons,
        ih (fun hm => hfin (List.mem_cons_of_mem _ hm))]

lemma mem_filterMap_toQ (row : List EF) (b : ℚ) :
    b ∈ row.filterMap EF.toQ ↔ EF.q b ∈ row := by
  rw [List.mem_filterMap]
  constructor
  · rintro ⟨a, ha, hab⟩
    rcases a with _ | b'
    · exact absurd hab (by simp [EF.toQ])
    · have : b' = b := by simpa [EF.toQ] using hab
      rw [← this]
      exact ha
  · intro h
    exact ⟨EF.q b, h, rfl⟩

lemma percentile_100_eq_max (row : List EF) (hne : row ≠ []) (hfin : EF.nan ∉ row) :
    ∃ M : ℚ, percentile row 100 = EF.q M ∧ ∀ a ∈ row, EF.le a (EF.q M) = true := by
  have hn : 0 < (row.filterMap EF.toQ).length := by
    rw [filterMap_toQ_length row hfin, List.length_pos]
    exact hne
  refine ⟨((row.filterMap EF.toQ).insertionSort (· ≤ ·)).getD
    ((row.filterMap EF.toQ).length - 1) 0, ?_, ?_⟩
  · show percentile row 100 = _
    simp only [percentile]
    rw [if_neg hfin]
    have h100 : (((row.filterMap EF.toQ).length : ℚ) - 1) * 100 / 100
        = (((row.filterMap EF.toQ).length - 1 : ℕ) : ℚ) := by
      rw [mul_div_cancel_right₀ _ (show (100 : ℚ) ≠ 0 by norm_num), Nat.cast_pred hn]
    rw [h100, Int.floor_natCast, Int.toNat_natCast, sub_self, zero_mul, add_zero]
  · intro a ha
    rcases a with _ | b
    · exact absurd ha hfin
    · have hbq : b ∈ row.filterMap EF.toQ := (mem_filterMap_toQ row b).mpr ha
      have hbs : b ∈ (row.filterMap EF.toQ).insertionSort (· ≤ ·) :=
        (List.perm_insertionSort _ _).mem_iff.mpr hbq
      have hslen : ((row.filterMap EF.toQ).insertionSort (· ≤ ·)).length
          = (row.filterMap EF.toQ).length := (List.perm_insertionSort _ _).length_eq
      rcases List.mem_iff_get.mp hbs with ⟨j, rfl⟩
      have hlast : (((row.filterMap EF.toQ).insertionSort (· ≤ ·)).getD
          ((row.filterMap EF.toQ).length - 1) 0)
          = ((row.filterMap EF.toQ).insertionSort (· ≤ ·)).get
            ⟨(row.filterMap EF.toQ).length - 1, by omega⟩ := by
        rw [List.getD_eq_getElem?_getD, List.getElem?_eq_getElem (by omega)]
        rfl
      rw [hlast]
      have hle := (List.sorted_insertionSort (· ≤ ·) (row.filterMap EF.toQ)).rel_get_of_le
        (show j ≤ (⟨(row.filterMap EF.toQ).length - 1, by omega⟩ :
            Fin ((row.filterMap EF.toQ).insertionSort (· ≤ ·)).length) by
          rcases j with ⟨jv, hjv⟩
          simp only [Fin.mk_le_mk]
          omega)
      show decide _ = true
      exact decide_eq_true hle

/-! With a surviving all-true mask the filter keeps every row intact. -/

lemma applyMask_all_true (row : List EF) (mask : List Bool)
    (hm : ∀ b ∈ mask, b = true) (hl : row.length ≤ mask.length) :
    applyMask row mask = row := by
  induction row generalizing mask with
  | nil => rfl
  | cons a t ih =>
    cases mask with
    | nil => simp at hl
    | cons b mb =>
      have hb : b = true := hm b (List.mem_cons_self _ _)
      rw [hb]
      show (((a, true) :: t.zip mb).filter (fun rb => rb.2)).map (fun rb => rb.1) = a :: t
      rw [List.filter_cons_of_pos (by rfl), List.map_cons]
      rw [show ((t.zip mb).filter (fun rb => rb.2)).map (fun rb => rb.1) = applyMask t mb
        from rfl]
      rw [ih mb (fun x hx => hm x (List.mem_cons_of_mem _ hx)) (by simpa using hl)]

lemma zip_map_self {α β : Type _} (l : List α) (f : α → β) :
    l.zip (l.map f) = l.map (fun a => (a, f a)) := by
  induction l with
  | nil => rfl
  | cons a t ih => simp [ih]

lemma filterOutliers_100_noop (m : Matrix) (ncols : Nat) (h0 : 0 < ncols)
    (hlen : ∀ row ∈ m, row.length = ncols) (hfin : ∀ row ∈ m, EF.nan ∉ row) :
    filterOutliers m 100 = some m := by
  have hne : ¬ (m.any (fun row => row.isEmpty) = true) := by
    rw [List.any_eq_true]
    rintro ⟨row, hrow, hemp⟩
    rw [List.isEmpty_iff] at hemp
    have := hlen row hrow
    rw [hemp] at this
    simp at this
    omega
  unfold filterOutliers
  rw [if_neg hne]
  refine congrArg some ?_
  have hmask : ∀ b ∈ colMask m 100, b = true := by
    intro b hb
    rcases List.mem_map.mp hb with ⟨c, hc, rfl⟩
    rw [List.mem_range] at hc
    rw [List.all_eq_true]
    intro rt hrt
    rw [zip_map_self] at hrt
    rcases List.mem_map.mp hrt with ⟨row, hrow, rfl⟩
    have hrlen : row.length = ncols := hlen row hrow
    have hrne : row ≠ [] := by
      intro hcontra
      rw [hcontra] at hrlen
      simp at hrlen
      omega
    rcases percentile_100_eq_max row hrne (hfin row hrow) with ⟨M, hM, hbound⟩
    show EF.le (row.getD c (EF.q 0)) (percentile row 100) = true
    rw [hM]
    apply hbound
    have hcc : c < row.length := by
      have hhead : (m.headD []).length = ncols := by
        cases m with
        | nil => exact absurd hrow (List.not_mem_nil row)
        | cons r0 t => exact hlen r0 (List.mem_cons_self _ _)
      rw [hrlen, ← hhead]
      exact hc
    rw [List.getD_eq_getElem?_getD, List.getElem?_eq_getElem hcc]
    exact List.getElem_mem hcc
  have hmask_len : (colMask m 100).length = (m.headD []).length := by
    unfold colMask
    rw [List.length_map, List.length_range]
  have hrows : ∀ row ∈ m, applyMask row (colMask m 100) = row := by
    intro row hrow
    refine applyMask_all_true row _ hmask ?_
    rw [hmask_len]
    cases m with
    | nil => exact absurd hrow (List.not_mem_nil row)
    | cons r0 t =>
      have : (r0 :: t).headD [] = r0 := rfl
      rw [this, hlen r0 (List.mem_cons_self _ _), hlen row hrow]
  rw [List.map_congr_left hrows, List.map_id']

/-- Claim C2 as stated is false: at percentile 100, a NaN anywhere in a row
makes that row's threshold NaN, so every column fails the comparison and is
removed — including the all-finite column.  Here the matrix [[1, NaN]] has
the all-finite column [1], yet filtering returns [[]]. -/
theorem C2_counterexample : filterOutliers [[EF.q 1, EF.nan]] 100 = some [[]] := by
  decide

/-- Claim C2, amended: with percentile 100 the Outlier Filter removes no
column of a matrix with uniform row length whose entries are all finite;
when any row holds a NaN, that row's threshold is NaN and every column is
removed. -/
theorem C2_p100_keeps_finite_columns (m : Matrix) (ncols : Nat) (h0 : 0 < ncols)
    (hlen : ∀ row ∈ m, row.length = ncols) (hfin : ∀ row ∈ m, EF.nan ∉ row) :
    filterOutliers m 100 = some m :=
  filterOutliers_100_noop m ncols h0 hlen hfin

/-- Witness for the amended C2 at a concrete finite matrix. -/
theorem C2_p100_keeps_finite_columns_witness :
    filterOutliers [[EF.q 5]] 100 = some [[EF.q 5]] :=
  C2_p100_keeps_finite_columns [[EF.q 5]] 1 (by decide) (by decide) (by decide)

/-- Claim C4 as stated is false: at percentile 50 the threshold is recomputed
on the filtered matrix, so a second filtering removes more columns.  On
[[1, 2, 3, 4]] the first pass keeps [[1, 2]] and the second keeps [[1]]. -/
theorem C4_counterexample :
    (filterOutliers [[EF.q 1, EF.q 2, EF.q 3, EF.q 4]] 50).bind
      (fun m2 => filterOutliers m2 50)
      ≠ filterOutliers [[EF.q 1, EF.q 2, EF.q 3, EF.q 4]] 50 := by
  have h1 : filterOutliers [[EF.q 1, EF.q 2, EF.q 3, EF.q 4]] 50
      = some [[EF.q 1, EF.q 2]] := by
    simp [filterOutliers, colMask, percentile, EF.toQ, List.insertionSort,
      List.orderedInsert, applyMask, EF.le, List.range_succ]
    norm_num
  have h2 : filterOutliers [[EF.q 1, EF.q 2]] 50 = some [[EF.q 1]] := by
    simp [filterOutliers, colMask, percentile, EF.toQ, List.insertionSort,
      List.orderedInsert, applyMask, EF.le, List.range_succ]
    norm_num
  rw [h1]
  show filterOutliers [[EF.q 1, EF.q 2]] 50 ≠ some [[EF.q 1, EF.q 2]]
  rw [h2]
  decide

/-- Claim C4, amended: the Outlier Filter is idempotent at the default
percentile 100 on matrices with uniform row length and only finite entries,
where it removes nothing. -/
theorem C4_p100_idempotent_on_finite (m : Matrix) (ncols : Nat) (h0 : 0 < ncols)
    (hlen : ∀ row ∈ m, row.length = ncols) (hfin : ∀ row ∈ m, EF.nan ∉ row) :
    (filterOutliers m 100).bind (fun m2 => filterOutliers m2 100)
      = filterOutliers m 100 := by
  rw [filterOutliers_100_noop m ncols h0 hlen hfin]
  show filterOutliers m 100 = some m
  exact filterOutliers_100_noop m ncols h0 hlen hfin

/-- Witness for the amended C4 at a concrete finite matrix. -/
theorem C4_p100_idempotent_on_finite_witness :
    (filterOutliers [[EF.q 2, EF.q 7]] 100).bind (fun m2 => filterOutliers m2 100)
      = filterOutliers [[EF.q 2, EF.q 7]] 100 :=
  C4_p100_idempotent_on_finite [[EF.q 2, EF.q 7]] 2 (by decide) (by decide) (by decide)

/-! Elementary sum identities used for the regression proofs. -/

lemma sum_map_mul_const (l : List ℚ) (p : ℚ) (f : ℚ → ℚ) :
    (l.map (fun a => p * f a)).sum = p * (l.map f).sum := by
  induction l with
  | nil => simp
  | cons a t ih =>
    simp only [List.map_cons, List.sum_cons, ih]
    ring

lemma sum_map_affine (l : List ℚ) (p q : ℚ) :
    (l.map (fun a => p * a + q)).sum = p * l.sum + q * l.length := by
  induction l with
  | nil => simp
  | cons a t ih =>
    simp only [List.map_cons, List.sum_cons, List.length_cons, ih]
    push_cast
    ring

lemma sum_map_nonneg (l : List ℚ) (f : ℚ → ℚ) (h : ∀ a ∈ l, 0 ≤ f a) :
    0 ≤ (l.map f).sum := by
  induction l with
  | nil => simp
  | cons a t ih =>
    simp only [List.map_cons, List.sum_cons]
    have h1 := h a (List.mem_cons_self _ _)
    have h2 := ih (fun x hx => h x (List.mem_cons_of_mem _ hx))
    linarith

lemma sum_map_zero (l : List ℚ) : (l.map (fun _ => (0 : ℚ))).sum = 0 := by
  induction l with
  | nil => simp
  | cons a t ih => simp [ih]

lemma sq_term_zero (l : List ℚ) (f : ℚ → ℚ)
    (hz : (l.map (fun a => (f a) ^ 2)).sum = 0) : ∀ a ∈ l, f a = 0 := by
  induction l with
  | nil => exact fun a ha => absurd ha (List.not_mem_nil a)
  | cons a t ih =>
    simp only [List.map_cons, List.sum_cons] at hz
    have h1 : 0 ≤ (f a) ^ 2 := sq_nonneg _
    have h2 : 0 ≤ (t.map (fun a => (f a) ^ 2)).sum :=
      sum_map_nonneg t _ (fun x _ => sq_nonneg _)
    have ha2 : (f a) ^ 2 = 0 := by linarith
    have ht : (t.map (fun a => (f a) ^ 2)).sum = 0 := by linarith
    intro x hx
    rcases List.mem_cons.mp hx with rfl | hx'
    · exact pow_eq_zero_iff (by norm_num) |>.mp ha2
    · exact ih ht x hx'

lemma zip_self {α : Type _} (l : List α) : l.zip l = l.map (fun a => (a, a)) := by
  induction l with
  | nil => rfl
  | cons a t ih => simp [ih]

lemma sum_eq_of_const (l : List ℚ) (c : ℚ) (h : ∀ a ∈ l, a = c) :
    l.sum = c * l.length := by
  induction l with
  | nil => simp
  | cons a t ih =>
    simp only [List.sum_cons, List.length_cons]
    rw [h a (List.mem_cons_self _ _), ih (fun x hx => h x (List.mem_cons_of_mem _ hx))]
    push_cast
    ring

/-- Claim C3 as stated is false: on constant X the Correlation Estimator
does not raise any error; sklearn's minimum-norm least squares returns slope
0 with intercept mean(Y).  At X = [5,5,5], Y = [1,2,3] it returns (0, 2). -/
theorem C3_counterexample : olsFit [5, 5, 5] [1, 2, 3] = (0, 2) := by
  simp [olsFit, pinvDiv]
  norm_num

/-- Claim C3, amended: on a constant X vector the estimator silently
returns the finite minimum-norm solution, slope 0 and intercept mean(Y);
no error is raised and no NaN is produced. -/
theorem C3_constant_x_gives_zero_slope (x y : List ℚ) (c : ℚ) (hne : x ≠ [])
    (hconst : ∀ a ∈ x, a = c) :
    olsFit x y = (0, y.sum / (x.length : ℚ)) := by
  have hlen : (0 : ℚ) < (x.length : ℚ) := by
    have := List.length_pos.mpr hne
    exact_mod_cast this
  have hxbar : x.sum / (x.length : ℚ) = c := by
    rw [sum_eq_of_const x c hconst]
    field_simp
  have hmap : x.map (fun a => (a - x.sum / (x.length : ℚ)) ^ 2)
      = x.map (fun _ => (0 : ℚ)) :=
    List.map_congr_left (fun a ha => by rw [hconst a ha, hxbar]; ring)
  simp only [olsFit]
  rw [hmap, sum_map_zero]
  simp [pinvDiv]

/-- Witness for the amended C3: X = [7,7] is constant, so the fit is
slope 0 and intercept mean([1,3]) = 2. -/
theorem C3_constant_x_gives_zero_slope_witness :
    olsFit [7, 7] [1, 3] = (0, 2) := by
  rw [C3_constant_x_gives_zero_slope [7, 7] [1, 3] 7 (by decide) (by decide)]
  norm_num

/-- Claim C5: fitting Y = 2X + 3 exactly, over any X with at least two
distinct values, recovers slope 2 and intercept 3 with coefficient of
determination 1 (exact over the rationals). -/
theorem C5_exact_line_recovers_fit (x y : List ℚ) (a b : ℚ) (hlen : 2 ≤ x.length)
    (ha : a ∈ x) (hb : b ∈ x) (hab : a ≠ b) (hy : y = x.map (fun t => 2 * t + 3)) :
    olsFit x y = (2, 3) ∧ r2Score x y = 1 := by
  subst hy
  have hn0 : ((x.length : ℚ)) ≠ 0 := Nat.cast_ne_zero.mpr (by omega)
  have hq : (x.map (fun t => 2 * t + 3)).sum / (x.length : ℚ)
      = 2 * (x.sum / (x.length : ℚ)) + 3 := by
    rw [sum_map_affine]
    field_simp
  have hsxx : (x.map (fun t => (t - x.sum / (x.length : ℚ)) ^ 2)).sum ≠ 0 := by
    intro h0
    have hz := sq_term_zero x (fun t => t - x.sum / (x.length : ℚ)) h0
    have h1 := hz a ha
    have h2 := hz b hb
    exact hab (by linarith)
  have hsxy : ((x.zip (x.map (fun t => 2 * t + 3))).map
      (fun ab => (ab.1 - x.sum / (x.length : ℚ))
        * (ab.2 - (x.map (fun t => 2 * t + 3)).sum / (x.length : ℚ)))).sum
      = 2 * (x.map (fun t => (t - x.sum / (x.length : ℚ)) ^ 2)).sum := by
    rw [zip_map_self, List.map_map]
    have hpt : x.map ((fun ab : ℚ × ℚ => (ab.1 - x.sum / (x.length : ℚ))
        * (ab.2 - (x.map (fun t => 2 * t + 3)).sum / (x.length : ℚ)))
          ∘ (fun t => (t, 2 * t + 3)))
        = x.map (fun t => 2 * ((t - x.sum / (x.length : ℚ)) ^ 2)) := by
      refine List.map_congr_left (fun t ht => ?_)
      show (t - x.sum / (x.length : ℚ))
          * ((2 * t + 3) - (x.map (fun t => 2 * t + 3)).sum / (x.length : ℚ))
        = 2 * ((t - x.sum / (x.length : ℚ)) ^ 2)
      rw [hq]
      ring
    rw [hpt, sum_map_mul_const]
  have hfit : olsFit x (x.map (fun t => 2 * t + 3)) = (2, 3) := by
    simp only [olsFit]
    rw [hsxy]
    simp only [Prod.mk.injEq]
    constructor
    · show pinvDiv (2 * (x.map (fun t => (t - x.sum / (x.length : ℚ)) ^ 2)).sum)
          ((x.map (fun t => (t - x.sum / (x.length : ℚ)) ^ 2)).sum) = 2
      unfold pinvDiv
      rw [if_neg hsxx, mul_div_cancel_right₀ _ hsxx]
    · show (x.map (fun t => 2 * t + 3)).sum / (x.length : ℚ)
          - pinvDiv (2 * (x.map (fun t => (t - x.sum / (x.length : ℚ)) ^ 2)).sum)
            ((x.map (fun t => (t - x.sum / (x.length : ℚ)) ^ 2)).sum)
            * (x.sum / (x.length : ℚ)) = 3
      unfold pinvDiv
      rw [if_neg hsxx, mul_div_cancel_right₀ _ hsxx, hq]
      ring
  refine ⟨hfit, ?_⟩
  simp only [r2Score]
  rw [hfit]
  have hpred : x.map (fun a => ((2 : ℚ), (3 : ℚ)).1 * a + ((2 : ℚ), (3 : ℚ)).2)
      = x.map (fun t => 2 * t + 3) := rfl
  rw [hpred]
  have hres : (((x.map (fun t => 2 * t + 3)).zip (x.map (fun t => 2 * t + 3))).map
      (fun vp => (vp.1 - vp.2) ^ 2)).sum = 0 := by
    rw [zip_self, List.map_map]
    have hz : (x.map (fun t => 2 * t + 3)).map
        ((fun vp : ℚ × ℚ => (vp.1 - vp.2) ^ 2) ∘ (fun a => (a, a)))
        = (x.map (fun t => 2 * t + 3)).map (fun _ => (0 : ℚ)) :=
      List.map_congr_left (fun t _ => by show (t - t) ^ 2 = 0; ring)
    rw [hz, sum_map_zero]
  have htot : ((x.map (fun t => 2 * t + 3)).map (fun v =>
      (v - (x.map (fun t => 2 * t + 3)).sum / ((x.map (fun t => 2 * t + 3)).length : ℚ)) ^ 2)).sum
      = 4 * (x.map (fun t => (t - x.sum / (x.length : ℚ)) ^ 2)).sum := by
    rw [List.length_map, List.map_map]
    have hz : x.map ((fun v => (v - (x.map (fun t => 2 * t + 3)).sum / (x.length : ℚ)) ^ 2)
        ∘ (fun t => 2 * t + 3))
        = x.map (fun t => 4 * ((t - x.sum / (x.length : ℚ)) ^ 2)) :=
      List.map_congr_left (fun t _ => by
        show ((2 * t + 3) - (x.map (fun t => 2 * t + 3)).sum / (x.length : ℚ)) ^ 2 = _
        rw [hq]
        ring)
    rw [hz, sum_map_mul_const]
  rw [hres, htot]
  unfold r2Of
  rw [if_neg (mul_ne_zero (by norm_num) hsxx), zero_div, sub_zero]

/-- Witness for C5 at X = [0, 1]. -/
theorem C5_exact_line_recovers_fit_witness :
    olsFit [0, 1] ([0, 1].map (fun t => 2 * t + 3)) = (2, 3) ∧
      r2Score [0, 1] ([0, 1].map (fun t => 2 * t + 3)) = 1 :=
  C5_exact_line_recovers_fit [0, 1] ([0, 1].map (fun t => 2 * t + 3)) 0 1
    (by decide) (by decide) (by decide) (by decide) rfl

/-- Claim C8 as stated is false: a paired dataset of N = 2 points makes the
2-dimensional sample covariance rank-deficient, so the Density Estimator
fails; here the two points (0,0) and (1,1). -/
theorem C8_counterexample : gaussianKdeOk [0, 1] [0, 1] = false := by
  simp [gaussianKdeOk, scatterMatDet]
  norm_num

/-- Claim C8, amended: the Density Estimator fails for every paired dataset
with at most two points — below two scipy refuses outright, and at exactly
two the sample covariance of two points in the plane is always singular —
so success requires N of at least 3 (and a nonsingular covariance). -/
theorem C8_kde_needs_three_points (x y : List ℚ) (hxy : x.length = y.length)
    (hn : x.length ≤ 2) : gaussianKdeOk x y = false := by
  unfold gaussianKdeOk
  rcases Nat.lt_or_ge x.length 2 with hlt | hge
  · rw [decide_eq_false (by omega), Bool.false_and]
  · have h2 : x.length = 2 := by omega
    have hy2 : y.length = 2 := by omega
    rcases List.length_eq_two.mp h2 with ⟨a, b, rfl⟩
    rcases List.length_eq_two.mp hy2 with ⟨c, d, rfl⟩
    have hdet : scatterMatDet [a, b] [c, d] = 0 := by
      simp only [scatterMatDet, List.map_cons, List.map_nil, List.zip_cons_cons,
        List.zip_nil_right, List.sum_cons, List.sum_nil, List.length_cons,
        List.length_nil]
      push_cast
      field_simp
      ring
    rw [hdet]
    simp

/-- Witness for the amended C8 at a different pair of points. -/
theorem C8_kde_needs_three_points_witness : gaussianKdeOk [0, 2] [1, 5] = false :=
  C8_kde_needs_three_points [0, 2] [1, 5] (by decide) (by decide)

/-- Claim C9: with an input count other than 2 or 4 the run raises the
invalid-input-count error before any annotation loading or track I/O is
attempted: the event list of the run is empty. -/
theorem C9_invalid_count_fails_before_io (nInputs : Nat) (d : Bool)
    (genes : List Interval) (level : Nat → Nat → EF) (p : ℚ)
    (h2 : nInputs ≠ 2) (h4 : nInputs ≠ 4) :
    runMain nInputs d genes level p = ([], Except.error RunError.invalidInputCount) := by
  unfold runMain
  rw [if_neg]
  rintro (h | h)
  · exact h2 h
  · exact h4 h

/-- Witness for C9 at input count 3. -/
theorem C9_invalid_count_fails_before_io_witness :
    runMain 3 false [] (fun _ _ => EF.q 0) 100
      = ([], Except.error RunError.invalidInputCount) :=
  C9_invalid_count_fails_before_io 3 false [] (fun _ _ => EF.q 0) 100
    (by decide) (by decide)

/-! Shape facts feeding the out-of-bounds argument of C10. -/

lemma length_aggregate (nI : Nat) (d : Bool) (genes : List Interval)
    (level : Nat → Nat → EF) :
    (aggregate nI d genes level).length = if d then nI / 2 else nI := by
  show ((List.range nI).foldl (aggStep d genes level)
      (List.replicate (if d then nI / 2 else nI) (List.replicate genes.length (EF.q 0)))).length
    = if d then nI / 2 else nI
  rw [foldl_pres List.length _ _ (fun s _ mm => by
    rw [← dims_length, dims_aggStep, dims_length]) _]
  exact List.length_replicate _ _

lemma filterOutliers_length (m : Matrix) (p : ℚ) (m2 : Matrix)
    (h : filterOutliers m p = some m2) : m2.length = m.length := by
  unfold filterOutliers at h
  by_cases hc : m.any (fun row => row.isEmpty) = true
  · rw [if_pos hc] at h
    exact Option.noConfusion h
  · rw [if_neg hc] at h
    have := Option.some.inj h
    rw [← this, List.length_map]

/-- Claim C10: with 2 input tracks in strand-distinguishing mode the value
matrix has a single row, so the regression's read of row 1 is out of bounds
and the run ends in an error; no FitResult is ever produced. -/
theorem C10_two_track_distinguish_never_fits (genes : List Interval)
    (level : Nat → Nat → EF) (p : ℚ) :
    ∃ e, (runMain 2 true genes level p).2 = Except.error e := by
  have hlen : (aggregate 2 true genes level).length = 1 := by
    rw [length_aggregate]
    rfl
  simp only [runMain]
  rw [if_pos (Or.inl trivial)]
  rcases hf : filterOutliers (aggregate 2 true genes level) p with _ | filtered
  · exact ⟨RunError.percentileEmpty, rfl⟩
  · have hflen : filtered.length = 1 := by
      rw [filterOutliers_length _ _ _ hf, hlen]
    have h1 : filtered[1]? = none := List.getElem?_eq_none (by omega)
    refine ⟨RunError.rowIndexOutOfBounds, ?_⟩
    show fitStage filtered = Except.error RunError.rowIndexOutOfBounds
    unfold fitStage
    rcases h0 : filtered[0]? with _ | x
    · rw [h1]
    · rw [h1]

/-- Claim C1 contradicts the code: with 4 tracks and strand distinguishing
off, `main` builds a 4-row matrix and never sums track pairs, although its
own CLI help text promises the first two and last two inputs are added
together.  At the claimed scenario with per-track means 3, 4, 1, 1 on one
interval, the rows are [3], [4], [1], [1] — not the pairwise sums 7 and 2 —
and the regression then reads rows 0 and 1, comparing 3 against 4. -/
theorem C1_no_group_sum_of_pairs :
    aggregate 4 false [⟨"chrI", 0, 100, "+"⟩]
      (fun s _ => EF.q ([3, 4, 1, 1].getD s 0))
      = [[EF.q 3], [EF.q 4], [EF.q 1], [EF.q 1]] := by
  decide

end Linchange
